import Mathlib

/-!
Shallow embedding of the Winternitz one-time signature scheme from
src/src/winternitz.rs, together with theorems settling the specification
claims about key generation, signing and verification.

Modelling choices:
* A byte string is a list of naturals (`Bytes`); each byte holds a value
  below 256, but none of the verified properties depends on that bound.
* The SHA-256 compression function is an opaque parameter
  `Hash : Bytes → Bytes` threaded through every operation; where a claim
  needs the 256-bit output size it carries the hypothesis
  `∀ x, (Hash x).length = 32`.
* The thread-local random generator consumed by `Winternitz::new` is an
  explicit byte source `rng : Nat → Nat → Nat` (`rng i j` is byte `j` of
  the seed for chain `i`); `rng.fill_bytes` on a `vec![0u8; 32]` buffer
  becomes a map over `List.range 32`, so seeds are 32 bytes by construction.
* Rust panics are modelled as `none`: `Winternitz::new` divides `256 / w`
  with no guard (so `w = 0` panics), and `verify` indexes
  `self.public_key[i]` for every `i` below `signature.len()` (so an
  oversized signature whose first components all match panics).
-/

namespace Wots

/-- A byte string, as produced by seed generation and by SHA-256. -/
abbrev Bytes := List Nat

/-- Iterated hashing, the hash-chain loop
`for _ in 0..k { current = Sha256::digest(&current).to_vec(); }`:
apply `Hash` to the byte string `k` times. -/
def hashIter (Hash : Bytes → Bytes) : Nat → Bytes → Bytes
  | 0, x => x
  | k + 1, x => hashIter Hash k (Hash x)

/-- The scheme state: parameter `w`, private seeds, chain endpoints. -/
structure Winternitz where
  w : Nat
  private_key : List Bytes
  public_key : List Bytes
  deriving DecidableEq

/-- The block value both `sign` and `verify` derive for chain `i`:
`if i < hash.len() { (hash[i] as usize).min((1 << w) - 1) } else { 0 }`. -/
def blockValue (hash : Bytes) (w i : Nat) : Nat :=
  if i < hash.length then min (hash.getD i 0) (2 ^ w - 1) else 0

/-- Seed `i`: a 32-byte buffer filled from the byte source
(`let mut seed = vec![0u8; 32]; rng.fill_bytes(&mut seed);`). -/
def seedOf (rng : Nat → Nat → Nat) (i : Nat) : Bytes :=
  (List.range 32).map (rng i)

/-- The key material built by the generation loop of `Winternitz::new` once
the parameter has been accepted: `n = 256 / w + 1` chains, private key the
seeds, public key each seed hashed `chain_length = 2^w - 1` times. -/
def mkWinternitz (Hash : Bytes → Bytes) (rng : Nat → Nat → Nat) (w : Nat) :
    Winternitz :=
  let n := 256 / w + 1
  let chain_length := 2 ^ w - 1
  { w := w
    private_key := (List.range n).map (fun i => seedOf rng i)
    public_key := (List.range n).map (fun i => hashIter Hash chain_length (seedOf rng i)) }

/-- `Winternitz::new(w)`. The Rust code computes `256 / w as usize` with no
guard, so `w = 0` panics with a division by zero; the panic is `none`. -/
def Winternitz.new (Hash : Bytes → Bytes) (rng : Nat → Nat → Nat) (w : Nat) :
    Option Winternitz :=
  if w = 0 then none else some (mkWinternitz Hash rng w)

/-- `Winternitz::sign(message)`: hash the message, then for each chain `i`
hash the seed `blockValue` times. -/
def Winternitz.sign (Hash : Bytes → Bytes) (s : Winternitz) (message : Bytes) :
    List Bytes :=
  let hash := Hash message
  (List.range s.private_key.length).map (fun i =>
    hashIter Hash (blockValue hash s.w i) (s.private_key.getD i []))

/-- The loop of `Winternitz::verify` over `i in 0..signature.len()`:
hash component `i` the remaining
`((1usize << w) - 1).saturating_sub(block_value)` times (saturating
subtraction is `Nat` subtraction) and compare with `public_key[i]`; that
indexing panics (`none`) when `i` is out of bounds; a mismatch
short-circuits to `some false`, exhausting the loop yields `some true`. -/
def verifyLoop (Hash : Bytes → Bytes) (s : Winternitz) (hash : Bytes) :
    Nat → List Bytes → Option Bool
  | _, [] => some true
  | i, comp :: rest =>
    if i < s.public_key.length then
      if hashIter Hash (2 ^ s.w - 1 - blockValue hash s.w i) comp = s.public_key.getD i [] then
        verifyLoop Hash s hash (i + 1) rest
      else some false
    else none

/-- `Winternitz::verify(message, signature)`. -/
def Winternitz.verify (Hash : Bytes → Bytes) (s : Winternitz) (message : Bytes)
    (signature : List Bytes) : Option Bool :=
  verifyLoop Hash s (Hash message) 0 signature

/-- `Winternitz::get_public_key()`. -/
def Winternitz.get_public_key (s : Winternitz) : List Bytes :=
  s.public_key

/-- A concrete stand-in hash for evaluating theorems on closed inputs:
always returns a 32-byte string. -/
def testHash (x : Bytes) : Bytes :=
  List.replicate 32 ((x.foldl (· + ·) 0 + x.length) % 256)

/-- A concrete byte source for evaluating theorems on closed inputs. -/
def testRng (i j : Nat) : Nat :=
  (i + 3 * j + 1) % 256

/- ### Basic lemmas about the embedding -/

theorem hashIter_add (Hash : Bytes → Bytes) (a b : Nat) (x : Bytes) :
    hashIter Hash (a + b) x = hashIter Hash b (hashIter Hash a x) := by
  induction a generalizing x with
  | zero => simp [hashIter]
  | succ a ih =>
    have h1 : a + 1 + b = (a + b) + 1 := by omega
    rw [h1]
    simpa only [hashIter] using ih (Hash x)

theorem hashIter_length (Hash : Bytes → Bytes) (hH : ∀ y, (Hash y).length = 32)
    (k : Nat) (x : Bytes) (hx : x.length = 32) :
    (hashIter Hash k x).length = 32 := by
  induction k generalizing x with
  | zero => simpa [hashIter] using hx
  | succ k ih => simpa only [hashIter] using ih (Hash x) (hH x)

theorem blockValue_le (hash : Bytes) (w i : Nat) :
    blockValue hash w i ≤ 2 ^ w - 1 := by
  unfold blockValue
  split
  · exact min_le_right _ _
  · exact Nat.zero_le _

theorem getD_map_range (f : Nat → Bytes) (n i : Nat) (h : i < n) (d : Bytes) :
    (((List.range n).map f).getD i d) = f i := by
  rw [List.getD_eq_getElem?_getD, List.getElem?_map, List.getElem?_range h]
  rfl

theorem length_map_range (f : Nat → Bytes) (n : Nat) :
    ((List.range n).map f).length = n := by
  simp

theorem seedOf_length (rng : Nat → Nat → Nat) (i : Nat) :
    (seedOf rng i).length = 32 := by
  simp [seedOf]

theorem mkWinternitz_w (Hash : Bytes → Bytes) (rng : Nat → Nat → Nat) (w : Nat) :
    (mkWinternitz Hash rng w).w = w :=
  rfl

theorem mkWinternitz_private_length (Hash : Bytes → Bytes) (rng : Nat → Nat → Nat)
    (w : Nat) : (mkWinternitz Hash rng w).private_key.length = 256 / w + 1 := by
  simp [mkWinternitz]

theorem mkWinternitz_public_length (Hash : Bytes → Bytes) (rng : Nat → Nat → Nat)
    (w : Nat) : (mkWinternitz Hash rng w).public_key.length = 256 / w + 1 := by
  simp [mkWinternitz]

theorem mkWinternitz_private_getD (Hash : Bytes → Bytes) (rng : Nat → Nat → Nat)
    (w i : Nat) (h : i < 256 / w + 1) :
    (mkWinternitz Hash rng w).private_key.getD i [] = seedOf rng i := by
  simpa [mkWinternitz] using getD_map_range (fun i => seedOf rng i) _ i h []

theorem mkWinternitz_public_getD (Hash : Bytes → Bytes) (rng : Nat → Nat → Nat)
    (w i : Nat) (h : i < 256 / w + 1) :
    (mkWinternitz Hash rng w).public_key.getD i [] =
      hashIter Hash (2 ^ w - 1) (seedOf rng i) := by
  simpa [mkWinternitz] using
    getD_map_range (fun i => hashIter Hash (2 ^ w - 1) (seedOf rng i)) _ i h []

theorem new_eq_some (Hash : Bytes → Bytes) (rng : Nat → Nat → Nat) (w : Nat)
    (s : Winternitz) (hs : Winternitz.new Hash rng w = some s) :
    w ≠ 0 ∧ s = mkWinternitz Hash rng w := by
  unfold Winternitz.new at hs
  split at hs
  · exact absurd hs (by simp)
  · injection hs with hval
    exact ⟨by assumption, hval.symm⟩

theorem sign_length (Hash : Bytes → Bytes) (s : Winternitz) (m : Bytes) :
    (Winternitz.sign Hash s m).length = s.private_key.length := by
  simp [Winternitz.sign]

theorem sign_getD (Hash : Bytes → Bytes) (s : Winternitz) (m : Bytes) (i : Nat)
    (h : i < s.private_key.length) :
    (Winternitz.sign Hash s m).getD i [] =
      hashIter Hash (blockValue (Hash m) s.w i) (s.private_key.getD i []) := by
  unfold Winternitz.sign
  exact getD_map_range _ _ i h []

/-- If every component of the candidate signature, hashed the remaining
number of times, agrees with the public-key entry at its index, the
verification loop returns `some true`. -/
theorem verifyLoop_all_match (Hash : Bytes → Bytes) (s : Winternitz) (hash : Bytes) :
    ∀ (sig : List Bytes) (i : Nat),
      (∀ j, j < sig.length →
        i + j < s.public_key.length ∧
        hashIter Hash (2 ^ s.w - 1 - blockValue hash s.w (i + j)) (sig.getD j []) =
          s.public_key.getD (i + j) []) →
      verifyLoop Hash s hash i sig = some true := by
  intro sig
  induction sig with
  | nil => intro i _; rfl
  | cons comp rest ih =>
    intro i h
    obtain ⟨hlt, heq⟩ := h 0 (by simp)
    simp only [Nat.add_zero, List.getD_cons_zero] at hlt heq
    unfold verifyLoop
    rw [if_pos hlt, if_pos heq]
    refine ih (i + 1) ?_
    intro j hj
    have h2 := h (j + 1) (by simpa using Nat.succ_lt_succ hj)
    have e : i + (j + 1) = i + 1 + j := by omega
    rw [e, List.getD_cons_succ] at h2
    exact h2

/-- For a generated instance, signature component `j`, hashed the remaining
number of times, reaches the chain endpoint stored in the public key. -/
theorem chains_match (Hash : Bytes → Bytes) (rng : Nat → Nat → Nat) (w : Nat)
    (m : Bytes) (j : Nat) (hj : j < 256 / w + 1) :
    hashIter Hash
        (2 ^ (mkWinternitz Hash rng w).w - 1 -
          blockValue (Hash m) (mkWinternitz Hash rng w).w j)
        ((Winternitz.sign Hash (mkWinternitz Hash rng w) m).getD j []) =
      (mkWinternitz Hash rng w).public_key.getD j [] := by
  rw [sign_getD _ _ _ j (by rw [mkWinternitz_private_length]; exact hj),
    mkWinternitz_private_getD _ _ _ j hj, mkWinternitz_public_getD _ _ _ j hj,
    mkWinternitz_w, ← hashIter_add]
  congr 1
  have hb := blockValue_le (Hash m) w j
  omega

/- ### The claims -/

/-- Claim C1: for every scheme instance produced by construction with a valid
Winternitz parameter w (the spec's valid range, which contains 2, 4, 8 and 16)
and every message m, verify(m, sign(m)) returns true. -/
theorem C1_round_trip (Hash : Bytes → Bytes) (rng : Nat → Nat → Nat) (w : Nat)
    (s : Winternitz) (hw : w ≤ 16) (hs : Winternitz.new Hash rng w = some s)
    (m : Bytes) :
    Winternitz.verify Hash s m (Winternitz.sign Hash s m) = some true := by
  obtain ⟨hw0, rfl⟩ := new_eq_some Hash rng w s hs
  unfold Winternitz.verify
  apply verifyLoop_all_match
  intro j hj
  rw [sign_length, mkWinternitz_private_length] at hj
  simp only [Nat.zero_add]
  exact ⟨by rw [mkWinternitz_public_length]; exact hj, chains_match Hash rng w m j hj⟩

/-- Claim C9: for every generated scheme instance and message, verify checks
only the components actually present, so the empty signature verifies as true
and every proper prefix of a signature produced by sign verifies as true. -/
theorem C9_prefixes_accepted (Hash : Bytes → Bytes) (rng : Nat → Nat → Nat)
    (w : Nat) (s : Winternitz) (hw : w ≤ 16)
    (hs : Winternitz.new Hash rng w = some s) (m : Bytes) :
    Winternitz.verify Hash s m [] = some true ∧
    ∀ k, k < 256 / w + 1 →
      Winternitz.verify Hash s m ((Winternitz.sign Hash s m).take k) = some true := by
  obtain ⟨hw0, rfl⟩ := new_eq_some Hash rng w s hs
  constructor
  · rfl
  intro k hk
  unfold Winternitz.verify
  apply verifyLoop_all_match
  intro j hj
  rw [List.length_take, sign_length, mkWinternitz_private_length] at hj
  have hjk : j < k := lt_of_lt_of_le hj (min_le_left _ _)
  have hjn : j < 256 / w + 1 := by omega
  simp only [Nat.zero_add]
  refine ⟨by rw [mkWinternitz_public_length]; exact hjn, ?_⟩
  have htake : ((Winternitz.sign Hash (mkWinternitz Hash rng w) m).take k).getD j [] =
      (Winternitz.sign Hash (mkWinternitz Hash rng w) m).getD j [] := by
    rw [List.getD_eq_getElem?_getD, List.getD_eq_getElem?_getD,
      List.getElem?_take, if_pos hjk]
  rw [htake]
  exact chains_match Hash rng w m j hjn

/-- Claim C5: on every instance produced by construction with a valid w,
hashing private_key[i] exactly 2^w - 1 times yields public_key[i], for every
chain index i. (In the embedding, sign and verify are read-only functions of
the instance, as in the Rust code, which takes the receiver immutably, so no
later operation can disturb this relation.) -/
theorem C5_chain_consistency (Hash : Bytes → Bytes) (rng : Nat → Nat → Nat)
    (w : Nat) (s : Winternitz) (hw : w ≤ 16)
    (hs : Winternitz.new Hash rng w = some s) :
    ∀ i, i < s.private_key.length →
      hashIter Hash (2 ^ s.w - 1) (s.private_key.getD i []) =
        s.public_key.getD i [] := by
  obtain ⟨hw0, rfl⟩ := new_eq_some Hash rng w s hs
  intro i hi
  rw [mkWinternitz_private_length] at hi
  rw [mkWinternitz_w, mkWinternitz_private_getD _ _ _ i hi,
    mkWinternitz_public_getD _ _ _ i hi]

/-- Claim C6: for every valid w, the private key and the public key of a
constructed instance both have floor(256 / w) + 1 components. -/
theorem C6_key_size (Hash : Bytes → Bytes) (rng : Nat → Nat → Nat) (w : Nat)
    (s : Winternitz) (hw : w ≤ 16) (hs : Winternitz.new Hash rng w = some s) :
    s.private_key.length = 256 / w + 1 ∧ s.public_key.length = 256 / w + 1 := by
  obtain ⟨hw0, rfl⟩ := new_eq_some Hash rng w s hs
  exact ⟨mkWinternitz_private_length Hash rng w, mkWinternitz_public_length Hash rng w⟩

/-- Claim C7: sign hashes the message and returns n = floor(256 / w) + 1
components; component i is the seed hashed min(digest[i], 2^w - 1) times when
i lies within the digest, and the seed itself (zero hash applications) for
the reserved chains beyond the digest. -/
theorem C7_sign_components (Hash : Bytes → Bytes) (rng : Nat → Nat → Nat)
    (w : Nat) (s : Winternitz) (hw : w ≤ 16)
    (hs : Winternitz.new Hash rng w = some s) (m : Bytes) :
    (Winternitz.sign Hash s m).length = 256 / w + 1 ∧
    ∀ i, i < 256 / w + 1 →
      (Winternitz.sign Hash s m).getD i [] =
        if i < (Hash m).length then
          hashIter Hash (min ((Hash m).getD i 0) (2 ^ w - 1))
            (s.private_key.getD i [])
        else s.private_key.getD i [] := by
  obtain ⟨hw0, rfl⟩ := new_eq_some Hash rng w s hs
  refine ⟨by rw [sign_length, mkWinternitz_private_length], ?_⟩
  intro i hi
  rw [sign_getD _ _ _ i (by rw [mkWinternitz_private_length]; exact hi),
    mkWinternitz_w]
  unfold blockValue
  split
  · rfl
  · rfl

/-- Claim C8: sign is a pure, deterministic function of the parameter w, the
private key and the message; it never reads the public key and consumes no
randomness (in the embedding it takes no random source at all), so two
instances agreeing on w and private key sign every message identically. -/
theorem C8_sign_deterministic (Hash : Bytes → Bytes) (s1 s2 : Winternitz)
    (m : Bytes) (hw : s1.w = s2.w) (hk : s1.private_key = s2.private_key) :
    Winternitz.sign Hash s1 m = Winternitz.sign Hash s2 m := by
  unfold Winternitz.sign
  rw [hw, hk]

/-- Claim C10: when the hash returns 32-byte strings, every byte string a
constructed instance produces is exactly 32 bytes long: each private seed
(filled into a 32-byte buffer), each public-key component, and each signature
component (a block value of 0 returns the 32-byte seed unchanged). -/
theorem C10_all_32_bytes (Hash : Bytes → Bytes) (rng : Nat → Nat → Nat)
    (w : Nat) (s : Winternitz) (hw : w ≤ 16)
    (hH : ∀ x, (Hash x).length = 32)
    (hs : Winternitz.new Hash rng w = some s) :
    (∀ i, i < s.private_key.length →
      (s.private_key.getD i []).length = 32 ∧
      (s.public_key.getD i []).length = 32) ∧
    ∀ m i, i < (Winternitz.sign Hash s m).length →
      ((Winternitz.sign Hash s m).getD i []).length = 32 := by
  obtain ⟨hw0, rfl⟩ := new_eq_some Hash rng w s hs
  constructor
  · intro i hi
    rw [mkWinternitz_private_length] at hi
    rw [mkWinternitz_private_getD _ _ _ i hi, mkWinternitz_public_getD _ _ _ i hi]
    exact ⟨seedOf_length rng i, hashIter_length Hash hH _ _ (seedOf_length rng i)⟩
  · intro m i hi
    rw [sign_length, mkWinternitz_private_length] at hi
    rw [sign_getD _ _ _ i (by rw [mkWinternitz_private_length]; exact hi),
      mkWinternitz_private_getD _ _ _ i hi]
    exact hashIter_length Hash hH _ _ (seedOf_length rng i)

/-- Claim C2 fails on the code: verify never compares the candidate's length
with n = floor(256 / w) + 1; on a concrete instance with w = 2 the empty
signature, which has 0 components rather than n = 129, verifies as true. -/
theorem C2_empty_signature_accepted :
    (List.length ([] : List Bytes) ≠ 256 / 2 + 1) ∧
    Winternitz.verify testHash (mkWinternitz testHash testRng 2) [1, 2, 3] [] =
      some true :=
  ⟨by decide, rfl⟩

set_option maxRecDepth 100000 in
/-- Claim C3 fails on the code: a candidate signature one component longer
than n whose first n components all match drives the loop to index n, where
indexing public_key panics (modelled as none) instead of returning false. -/
theorem C3_oversized_signature_panics :
    Winternitz.verify testHash (mkWinternitz testHash testRng 2) [1, 2, 3]
      (Winternitz.sign testHash (mkWinternitz testHash testRng 2) [1, 2, 3] ++
        [[0]]) = none := by
  decide

/-- Claim C4 fails on the code: Winternitz::new(0) evaluates 256 / 0 with no
parameter check and panics with a division by zero (modelled as none); no
InvalidParameter error exists anywhere in the implementation. -/
theorem C4_new_zero_panics :
    Winternitz.new testHash testRng 0 = none :=
  rfl

/- ### Concrete witnesses -/

set_option maxRecDepth 100000 in
/-- Witness for C1 at w = 2 and message [1, 2, 3]. -/
theorem C1_round_trip_witness :
    Winternitz.verify testHash (mkWinternitz testHash testRng 2) [1, 2, 3]
      (Winternitz.sign testHash (mkWinternitz testHash testRng 2) [1, 2, 3]) =
      some true :=
  C1_round_trip testHash testRng 2 (mkWinternitz testHash testRng 2)
    (by decide) rfl [1, 2, 3]

set_option maxRecDepth 100000 in
/-- Witness for C5 at w = 2 and chain index 0. -/
theorem C5_chain_consistency_witness :
    hashIter testHash (2 ^ (mkWinternitz testHash testRng 2).w - 1)
      ((mkWinternitz testHash testRng 2).private_key.getD 0 []) =
      (mkWinternitz testHash testRng 2).public_key.getD 0 [] :=
  C5_chain_consistency testHash testRng 2 (mkWinternitz testHash testRng 2)
    (by decide) rfl 0 (by decide)

/-- Witness for C6 at w = 8: both keys have 256 / 8 + 1 = 33 components. -/
theorem C6_key_size_witness :
    ((mkWinternitz testHash testRng 8).private_key.length = 256 / 8 + 1 ∧
      (mkWinternitz testHash testRng 8).public_key.length = 256 / 8 + 1) ∧
    256 / 8 + 1 = 33 :=
  ⟨C6_key_size testHash testRng 8 (mkWinternitz testHash testRng 8)
    (by decide) rfl, by decide⟩

set_option maxRecDepth 100000 in
/-- Witness for C7 at w = 2, message [7], component 0. -/
theorem C7_sign_components_witness :
    (Winternitz.sign testHash (mkWinternitz testHash testRng 2) [7]).length =
      256 / 2 + 1 ∧
    (Winternitz.sign testHash (mkWinternitz testHash testRng 2) [7]).getD 0 [] =
      (if 0 < (testHash [7]).length then
        hashIter testHash (min ((testHash [7]).getD 0 0) (2 ^ 2 - 1))
          ((mkWinternitz testHash testRng 2).private_key.getD 0 [])
      else (mkWinternitz testHash testRng 2).private_key.getD 0 []) :=
  ⟨(C7_sign_components testHash testRng 2 (mkWinternitz testHash testRng 2)
      (by decide) rfl [7]).1,
    (C7_sign_components testHash testRng 2 (mkWinternitz testHash testRng 2)
      (by decide) rfl [7]).2 0 (by decide)⟩

/-- Witness for C8: two instances sharing w and private key but holding
different public keys sign the message [9] identically. -/
theorem C8_sign_deterministic_witness :
    Winternitz.sign testHash ⟨2, [[1, 2]], [[3]]⟩ [9] =
      Winternitz.sign testHash ⟨2, [[1, 2]], [[4]]⟩ [9] :=
  C8_sign_deterministic testHash ⟨2, [[1, 2]], [[3]]⟩ ⟨2, [[1, 2]], [[4]]⟩
    [9] rfl rfl

set_option maxRecDepth 100000 in
/-- Witness for C9 at w = 2, message [5]: the empty signature and the
3-component prefix of the real signature both verify as true. -/
theorem C9_prefixes_accepted_witness :
    Winternitz.verify testHash (mkWinternitz testHash testRng 2) [5] [] =
      some true ∧
    Winternitz.verify testHash (mkWinternitz testHash testRng 2) [5]
      ((Winternitz.sign testHash (mkWinternitz testHash testRng 2) [5]).take 3) =
      some true :=
  ⟨(C9_prefixes_accepted testHash testRng 2 (mkWinternitz testHash testRng 2)
      (by decide) rfl [5]).1,
    (C9_prefixes_accepted testHash testRng 2 (mkWinternitz testHash testRng 2)
      (by decide) rfl [5]).2 3 (by decide)⟩

set_option maxRecDepth 100000 in
/-- Witness for C10 at w = 2: seed 0, endpoint 0 and signature component 0
are all 32 bytes long. -/
theorem C10_all_32_bytes_witness :
    ((mkWinternitz testHash testRng 2).private_key.getD 0 []).length = 32 ∧
    ((mkWinternitz testHash testRng 2).public_key.getD 0 []).length = 32 ∧
    ((Winternitz.sign testHash (mkWinternitz testHash testRng 2) [5]).getD 0
      []).length = 32 := by
  have h := C10_all_32_bytes testHash testRng 2 (mkWinternitz testHash testRng 2)
    (by decide) (fun x => by simp [testHash]) rfl
  exact ⟨(h.1 0 (by decide)).1, (h.1 0 (by decide)).2, h.2 [5] 0 (by decide)⟩

end Wots
